import Mathlib

/-!
Verification development for the `PageAgent` step-driven control loop
(`src/PageAgent.ts`).

The embedding is a shallow, trace-driven semantics of `PageAgent.execute`
and `PageAgent.#packMacroTool`:

* The tool registry (`this.tools`, a JS `Map`) is an association list with
  JS `Map` semantics (`set` replaces in place, `delete` removes).
* One loop iteration of `execute` consumes one `StepEvent` from an oracle
  trace describing the environment's behaviour for that iteration:
  an externally-cancelled token observed at the loop-top check, a rejected
  LLM `invoke` call (decode error / network failure / abort during flight),
  or a successful decode that runs the packed macro tool with the decoded
  `MacroToolInput` and a given behaviour of the selected tool's executor.
* JS numbers appearing in the wait-accounting arithmetic are rationals;
  `Math.round` is `⌊q + 1/2⌋`; machine time (`Date.now()` differences) is
  the oracle-supplied tool duration in milliseconds.
* A thrown JS error is a `String` (its description); `try`/`catch` is the
  `LoopOut.thrown` constructor, converted at the `execute` boundary exactly
  where the source's single `catch` sits.  The UI/panel/bus/hook side
  effects, which no claim is about, are not modelled; the pause flag and
  the `waitUntil` polling are real-time behaviour outside this embedding.
* The current `AbortController`'s state is `AgentState.aborted`; `#onDone`
  (which aborts it and is counted by `onDoneCalls`) is `onDone` below.

If the oracle trace runs out while the loop is still live, the run is
reported as `ExecOutcome.outOfTrace`: the behaviour beyond the given trace
is simply not determined by it.
-/

namespace PageAgentSpec

/-- A registered tool capability.  Only its identity (the registry key) and
its runtime behaviour (oracle-supplied per step) matter to the control loop,
so the capability record itself is opaque. -/
structure Tool where
  descr : String := ""
deriving DecidableEq

/-- The tool registry `this.tools`: a JS `Map` from tool name to tool. -/
abbrev Registry := List (String × Tool)

/-- JS `Map.prototype.get`. -/
def mapGet : Registry → String → Option Tool
  | [], _ => none
  | (k1, v) :: m, k => if k1 = k then some v else mapGet m k

/-- JS `Map.prototype.set`: replaces the entry in place if the key is
present, otherwise appends. -/
def mapSet (m : Registry) (k : String) (v : Tool) : Registry :=
  if (m.map Prod.fst).contains k then
    m.map (fun p => if p.1 = k then (k, v) else p)
  else m ++ [(k, v)]

/-- JS `Map.prototype.delete`. -/
def mapDelete (m : Registry) (k : String) : Registry :=
  m.filter (fun p => !(p.1 == k))

/-- One entry of `config.customTools` applied to the registry
(`PageAgent` constructor, lines 119-127): `null` deletes, anything else
inserts or overrides. -/
def applyCustom (m : Registry) (e : String × Option Tool) : Registry :=
  match e.2 with
  | none => mapDelete m e.1
  | some t => mapSet m e.1 t

/-- The registry built by the `PageAgent` constructor: the built-in map,
then every `customTools` entry applied in object-key order. -/
def buildTools (builtins : Registry) (customs : List (String × Option Tool)) : Registry :=
  customs.foldl applyCustom builtins

/-- The variant keys of the decision schema composed by `#packMacroTool`
(lines 280-288): one single-key object variant per registered tool, in
registry order.  The composed union is keyed by exactly these names. -/
def composeActionNames (m : Registry) : List String :=
  m.map Prod.fst

/-- The decoded input of one selected tool (a JS object).  `success?` and
`text?` are the fields the `done` handling reads (absent = `none`);
`seconds` is the field the `wait` accounting reads. -/
structure ToolArg where
  success? : Option Bool := none
  text? : Option String := none
  seconds : ℚ := 0
deriving DecidableEq

/-- `MacroToolInput`: the decoded structured output of one step.  `action`
is the JS object `{ toolName: toolInput }` as an association list in key
order; `Object.keys(action)[0]` is the head key. -/
structure MacroToolInput where
  evaluation_previous_goal : Option String := none
  memory : Option String := none
  next_goal : Option String := none
  action : List (String × ToolArg) := []
deriving DecidableEq

/-- Model usage statistics attached to one step. -/
structure Usage where
  promptTokens : Nat := 0
  completionTokens : Nat := 0
  totalTokens : Nat := 0
deriving DecidableEq

/-- `AgentBrain`: the narrative fields recorded per step. -/
structure AgentBrain where
  evaluation_previous_goal : String := ""
  memory : String := ""
  next_goal : String := ""
deriving DecidableEq

/-- The `action` component of one history record. -/
structure AgentAction where
  name : String := ""
  input : ToolArg := {}
  output : String := ""
deriving DecidableEq

/-- `AgentHistory`: one step record of the ledger. -/
structure AgentHistory where
  brain : AgentBrain := {}
  action : AgentAction := {}
  usage : Usage := {}
deriving DecidableEq

/-- `ExecutionResult`: the value returned by `execute`. -/
structure ExecutionResult where
  success : Bool := false
  data : String := ""
  history : List AgentHistory := []
deriving DecidableEq

/-- The mutable fields of a `PageAgent` instance that the control loop
reads or writes.  `aborted` is the state of the current
`AbortController`'s signal; `onDoneCalls` counts `#onDone` invocations;
`totalWaitTime` is `#totalWaitTime` (field-initialised to `0`). -/
structure AgentState where
  task : String := ""
  totalWaitTime : ℤ := 0
  aborted : Bool := false
  onDoneCalls : Nat := 0
  history : List AgentHistory := []
deriving DecidableEq

/-- The fixed step-limit failure message (line 232/236). -/
def stepLimitMsg : String := "Step count exceeded maximum limit"

/-- The fixed default for a missing/falsy `text` field of `done` (line 243). -/
def noTextMsg : String := "no text provided"

/-- The advisory line appended to the wait output once the accumulator
reaches the threshold (line 346). -/
def advisoryText : String := "\nDo NOT wait any longer unless you have a good reason.\n"

/-- The message of the defensive `assert` in `#packMacroTool` (line 324). -/
def toolNotFoundMsg (name : String) : String :=
  "Tool " ++ name ++ " not found. (@note should have been caught before this!!!)"

/-- JS `Math.round` on a rational: round half toward positive infinity. -/
def jsRound (q : ℚ) : ℤ := Rat.floor (q + 1 / 2)

/-- The `<sys>` suffix appended to a wait tool's output (lines 344-347),
as a function of the accumulator value after the update. -/
def waitSuffix (w : ℤ) : String :=
  "\n<sys> You have waited " ++ toString w ++ " seconds accumulatively."
    ++ (if 3 ≤ w then advisoryText else "") ++ "</sys>"

/-- JS `x || d` for a string-or-undefined `x`: the empty string is falsy. -/
def jsOrString : Option String → String → String
  | none, d => d
  | some "", d => d
  | some s, _ => s

/-- The oracle-supplied behaviour of the selected tool's executor for one
step: it either throws or returns its string output after a measured
duration in milliseconds. -/
inductive ToolRun where
  | fails (msg : String)
  | ok (output : String) (durationMs : ℚ)
deriving DecidableEq

/-- The environment's behaviour for one loop iteration. -/
inductive StepEvent where
  /-- The current token was cancelled externally before this iteration's
  loop-top check (line 178). -/
  | cancelBefore
  /-- `#llm.invoke` rejected (decode failure, transport failure, or abort
  observed inside the client) with this error description. -/
  | invokeFail (msg : String)
  /-- `#llm.invoke` decoded successfully and ran the packed macro tool on
  `input`; the selected tool's executor behaves as `tr`. -/
  | stepRun (input : MacroToolInput) (tr : ToolRun) (usage : Usage)
deriving DecidableEq

/-- Result of one run of the packed macro tool's `execute`. -/
inductive MacroOut where
  | thrown (msg : String)
  | ok (output : String) (newWait : ℤ)
deriving DecidableEq

/-- The body of the packed macro tool (`#packMacroTool().execute`,
lines 300-373): abort check, selected key extraction, registry lookup
(defensive `assert`), tool execution, then wait-accounting on the output.
Returns the recorded output and the new value of `#totalWaitTime`. -/
def runMacroTool (R : Registry) (wait : ℤ) (aborted : Bool)
    (input : MacroToolInput) (tr : ToolRun) : MacroOut :=
  if aborted then .thrown "AbortError"
  else
    match input.action.head? with
    | none => .thrown (toolNotFoundMsg "undefined")
    | some (toolName, arg) =>
      match mapGet R toolName with
      | none => .thrown (toolNotFoundMsg toolName)
      | some _t =>
        match tr with
        | .fails msg => .thrown msg
        | .ok raw durMs =>
          if toolName = "wait" then
            let w := wait + jsRound (arg.seconds + durMs / 1000)
            .ok (raw ++ waitSuffix w) w
          else
            .ok raw 0

/-- Outcome of the loop inside `execute`'s `try` block. -/
inductive LoopOut where
  /-- A `return` executed inside the `try` block. -/
  | ret (r : ExecutionResult) (st : AgentState)
  /-- An error thrown inside the loop, about to reach the `catch`. -/
  | thrown (msg : String) (st : AgentState)
  /-- The oracle trace is exhausted while the loop is still live. -/
  | more (st : AgentState) (step : Nat)
deriving DecidableEq

/-- `#onDone` (lines 435-453): panel updates and mask hiding are not
modelled; it aborts the current controller and is counted. -/
def onDone (st : AgentState) : AgentState :=
  { st with onDoneCalls := st.onDoneCalls + 1, aborted := true }

/-- The `brain` record assembled in `execute` (lines 207-211):
each narrative field `|| ''`. -/
def brainOf (input : MacroToolInput) : AgentBrain :=
  { evaluation_previous_goal := input.evaluation_previous_goal.getD ""
    memory := input.memory.getD ""
    next_goal := input.next_goal.getD "" }

/-- One iteration of the `while (true)` loop of `execute` (lines 172-254),
driven by one oracle event.  Returns either the state and step counter to
continue with, or a loop outcome. -/
def loopStep (maxSteps : Nat) (R : Registry) (st : AgentState) (step : Nat) :
    StepEvent → (AgentState × Nat) ⊕ LoopOut
  | .cancelBefore =>
    .inr (.thrown "AbortError" { st with aborted := true })
  | .invokeFail msg => .inr (.thrown msg st)
  | .stepRun input tr usage =>
    match runMacroTool R st.totalWaitTime st.aborted input tr with
    | .thrown msg => .inr (.thrown msg st)
    | .ok output newWait =>
      let na := input.action.head?.getD ("undefined", {})
      let record1 : AgentHistory :=
        { brain := brainOf input
          action := { name := na.1, input := na.2, output := output }
          usage := usage }
      let st1 := { st with totalWaitTime := newWait, history := st.history ++ [record1] }
      let step1 := step + 1
      if maxSteps < step1 then
        .inr (.ret { success := false, data := stepLimitMsg, history := st1.history } (onDone st1))
      else if na.1 = "done" then
        .inr (.ret { success := na.2.success?.getD false
                     data := jsOrString na.2.text? noTextMsg
                     history := st1.history } (onDone st1))
      else
        .inl (st1, step1)

/-- The loop inside `execute`'s `try` block, consuming the oracle trace. -/
def runLoop (maxSteps : Nat) (R : Registry) : AgentState → Nat → List StepEvent → LoopOut
  | st, step, [] => .more st step
  | st, step, e :: es =>
    match loopStep maxSteps R st step e with
    | .inl (st1, step1) => runLoop maxSteps R st1 step1 es
    | .inr out => out

/-- Outcome of one `execute` call. -/
inductive ExecOutcome where
  /-- The call rejected: the error propagated to the caller. -/
  | threw (msg : String) (st : AgentState)
  /-- The call returned this `ExecutionResult`. -/
  | done (r : ExecutionResult) (st : AgentState)
  /-- The oracle trace is exhausted while the loop is still live. -/
  | outOfTrace (st : AgentState) (step : Nat)
deriving DecidableEq

/-- The per-task initialisation of `execute` (lines 141-167): set the task,
abort the old controller and install a fresh (non-aborted) one, reset the
history ledger.  Note: `#totalWaitTime` is NOT touched here. -/
def resetForTask (st : AgentState) (task : String) : AgentState :=
  { st with task := task, history := [], aborted := false }

/-- `PageAgent.execute` (lines 139-266) over an oracle trace: the empty-task
guard, per-task initialisation, the loop, and the single `catch` converting
any error thrown inside the loop into a failure result carrying the
accumulated history. -/
def execute (maxSteps : Nat) (R : Registry) (st : AgentState)
    (task : String) (trace : List StepEvent) : ExecOutcome :=
  if task = "" then .threw "Task is required" st
  else
    match runLoop maxSteps R (resetForTask st task) 0 trace with
    | .ret r st1 => .done r st1
    | .thrown msg st1 =>
      .done { success := false, data := msg, history := st1.history } (onDone st1)
    | .more st1 step1 => .outOfTrace st1 step1

/-- The returned result of an `execute` outcome, when it returned. -/
def resultOf : ExecOutcome → Option ExecutionResult
  | .done r _ => some r
  | _ => none

/-- The agent state after an `execute` outcome. -/
def stateOf : ExecOutcome → AgentState
  | .threw _ s => s
  | .done _ s => s
  | .outOfTrace s _ => s

/-- A string contains the waiting-advisory text. -/
def hasAdvisory (s : String) : Prop :=
  advisoryText.toList <:+: s.toList

instance (s : String) : Decidable (hasAdvisory s) :=
  inferInstanceAs (Decidable (_ <:+: _))

/-- A fixed registry for concrete runs: the built-in shape relevant to the
claims (`wait`, `done`, plus two ordinary tools). -/
def regEx : Registry := [("wait", {}), ("done", {}), ("click", {}), ("noop", {})]

/-- A fresh agent state, as after construction. -/
def st0 : AgentState := {}

/-- A successful `wait` selection with the given requested seconds and zero
measured latency. -/
def waitEv (secs : ℚ) : StepEvent :=
  .stepRun { action := [("wait", { seconds := secs })] } (.ok "ok" 0) {}

/-- A successful selection of the ordinary tool `noop`. -/
def noopEv : StepEvent :=
  .stepRun { action := [("noop", {})] } (.ok "ok" 0) {}

/-- A successful selection of the ordinary tool `click`. -/
def clickEv : StepEvent :=
  .stepRun { action := [("click", {})] } (.ok "clicked" 0) {}

/-- A successful selection of the terminal tool `done` with the given
decoded input. -/
def doneEv (arg : ToolArg) : StepEvent :=
  .stepRun { action := [("done", arg)] } (.ok "done" 0) {}

/-- A step event on which the loop body completes normally and the selected
tool is not the terminal tool: the LLM call decodes, the single action key
names a registered tool other than `done`, and the tool's executor
returns. -/
def GoodStepN (R : Registry) (e : StepEvent) : Prop :=
  ∃ input raw dur usage name arg t,
    e = .stepRun input (.ok raw dur) usage ∧
    input.action.head? = some (name, arg) ∧
    mapGet R name = some t ∧ name ≠ "done"

/-- A step event on which the loop body completes normally: like
`GoodStepN` but the selected tool may be any registered tool, the terminal
tool included. -/
def GoodStepA (R : Registry) (e : StepEvent) : Prop :=
  ∃ input raw dur usage name arg t,
    e = .stepRun input (.ok raw dur) usage ∧
    input.action.head? = some (name, arg) ∧
    mapGet R name = some t

end PageAgentSpec

namespace PageAgentSpec

/-! ### Helper lemmas about the registry and the macro tool -/

theorem runMacroTool_eq_ok_other (R : Registry) (w : ℤ) (input : MacroToolInput)
    (name : String) (arg : ToolArg) (t : Tool) (raw : String) (dur : ℚ)
    (hhead : input.action.head? = some (name, arg)) (hw : name ≠ "wait")
    (ht : mapGet R name = some t) :
    runMacroTool R w false input (.ok raw dur) = .ok raw 0 := by
  simp [runMacroTool, hhead, ht, hw]

theorem runMacroTool_eq_ok_wait (R : Registry) (w : ℤ) (input : MacroToolInput)
    (arg : ToolArg) (t : Tool) (raw : String) (dur : ℚ)
    (hhead : input.action.head? = some ("wait", arg))
    (ht : mapGet R "wait" = some t) :
    runMacroTool R w false input (.ok raw dur) =
      .ok (raw ++ waitSuffix (w + jsRound (arg.seconds + dur / 1000)))
        (w + jsRound (arg.seconds + dur / 1000)) := by
  simp [runMacroTool, hhead, ht]

theorem runMacroTool_eq_notFound (R : Registry) (w : ℤ) (input : MacroToolInput)
    (name : String) (arg : ToolArg) (tr : ToolRun)
    (hhead : input.action.head? = some (name, arg)) (ht : mapGet R name = none) :
    runMacroTool R w false input tr = .thrown (toolNotFoundMsg name) := by
  simp [runMacroTool, hhead, ht]

theorem loopStep_no_more (M : Nat) (R : Registry) (st : AgentState) (step : Nat)
    (e : StepEvent) (s : AgentState) (n : Nat) :
    loopStep M R st step e ≠ .inr (.more s n) := by
  cases e with
  | cancelBefore => simp [loopStep]
  | invokeFail m => simp [loopStep]
  | stepRun input tr usage =>
    simp only [loopStep]
    cases runMacroTool R st.totalWaitTime st.aborted input tr with
    | thrown m => simp
    | ok o w =>
      simp only []
      split
      · simp
      · split <;> simp

theorem runLoop_append (M : Nat) (R : Registry) :
    ∀ (xs ys : List StepEvent) (st : AgentState) (step : Nat),
    runLoop M R st step (xs ++ ys) =
      match runLoop M R st step xs with
      | .more st1 step1 => runLoop M R st1 step1 ys
      | .ret r st1 => .ret r st1
      | .thrown m st1 => .thrown m st1 := by
  intro xs
  induction xs with
  | nil => intro ys st step; simp [runLoop]
  | cons e es ih =>
    intro ys st step
    simp only [List.cons_append, runLoop]
    cases h : loopStep M R st step e with
    | inl p => simpa using ih ys p.1 p.2
    | inr out =>
      cases out with
      | more s n => exact absurd h (loopStep_no_more M R st step e s n)
      | ret r s => simp
      | thrown m s => simp

/-! ### C9 and C4 -/

/-- C9: calling `execute` with an empty task string rejects with the
task-input error `"Task is required"` with the agent state untouched, and
this is the only way `execute` can reject: any outcome that propagates to
the caller is exactly this error, raised on the empty task before any
state mutation. -/
theorem C9_task_input (M : Nat) (R : Registry) (st : AgentState) (trace : List StepEvent) :
    execute M R st "" trace = .threw "Task is required" st ∧
    (∀ task msg st1, execute M R st task trace = .threw msg st1 →
      task = "" ∧ msg = "Task is required" ∧ st1 = st) := by
  constructor
  · simp [execute]
  · intro task msg st1 h
    by_cases htask : task = ""
    · subst htask
      simp [execute] at h
      exact ⟨rfl, h.1.symm, h.2.symm⟩
    · exfalso
      simp only [execute, if_neg htask] at h
      cases hrl : runLoop M R (resetForTask st task) 0 trace <;> simp [hrl] at h

/-- Witness for C9 at a concrete input. -/
theorem C9_task_input_witness :
    ("" : String) = "" ∧ ("Task is required" : String) = "Task is required" ∧ st0 = st0 :=
  (C9_task_input 1 regEx st0 []).2 "" "Task is required" st0
    ((C9_task_input 1 regEx st0 []).1)

/-- C4: with a non-empty task, no error raised inside the loop body ever
propagates to the caller of `execute` (the outcome is never `threw`), and
whenever the loop is still live after a prefix of the trace and the next
iteration's body throws (decode failure, tool not found, tool execution
failure, or observed cancellation — any `LoopOut.thrown`), `execute`
returns a result with `success = false`, `data` the error's description,
and `history` the step records accumulated so far. -/
theorem C4_errors_caught (M : Nat) (R : Registry) (st : AgentState) (task : String)
    (htask : task ≠ "") :
    (∀ trace msg st1, execute M R st task trace ≠ .threw msg st1) ∧
    (∀ pre ev rest st1 step1 msg st2,
      runLoop M R (resetForTask st task) 0 pre = .more st1 step1 →
      loopStep M R st1 step1 ev = .inr (.thrown msg st2) →
      execute M R st task (pre ++ ev :: rest) =
        .done { success := false, data := msg, history := st2.history } (onDone st2)) := by
  constructor
  · intro trace msg st1 h
    simp only [execute, if_neg htask] at h
    cases hrl : runLoop M R (resetForTask st task) 0 trace <;> simp [hrl] at h
  · intro pre ev rest st1 step1 msg st2 hpre hstep
    simp only [execute, if_neg htask, runLoop_append, hpre]
    simp [runLoop, hstep]

/-- Witness for C4 at a concrete input: a decode failure on the first step
is converted into a failure result with empty history. -/
theorem C4_errors_caught_witness :
    execute 1 regEx st0 "t" ([] ++ StepEvent.invokeFail "boom" :: []) =
      .done { success := false, data := "boom", history := [] }
        (onDone (resetForTask st0 "t")) :=
  (C4_errors_caught 1 regEx st0 "t" (by decide)).2 [] (.invokeFail "boom") []
    (resetForTask st0 "t") 0 "boom" (resetForTask st0 "t") rfl rfl

end PageAgentSpec

namespace PageAgentSpec

/-! ### Ledger-length invariant and the done-notification invariant -/

theorem runLoop_hist_inv (M : Nat) (R : Registry) :
    ∀ (tr : List StepEvent) (st : AgentState) (step : Nat),
    st.history.length = step → step ≤ M →
    (∀ r st1, runLoop M R st step tr = .ret r st1 → r.history.length ≤ M + 1) ∧
    (∀ m st1, runLoop M R st step tr = .thrown m st1 → st1.history.length ≤ M) ∧
    (∀ st1 step1, runLoop M R st step tr = .more st1 step1 →
      st1.history.length = step1 ∧ step1 ≤ M) := by
  intro tr
  induction tr with
  | nil =>
    intro st step hlen hle
    refine ⟨?_, ?_, ?_⟩
    · intro r st1 h; simp [runLoop] at h
    · intro m st1 h; simp [runLoop] at h
    · intro st1 step1 h
      simp [runLoop] at h
      rw [← h.1, ← h.2]
      exact ⟨hlen, hle⟩
  | cons e es ih =>
    intro st step hlen hle
    cases e with
    | cancelBefore =>
      refine ⟨?_, ?_, ?_⟩
      · intro r st1 h; simp [runLoop, loopStep] at h
      · intro m st1 h
        simp [runLoop, loopStep] at h
        rw [← h.2]
        simpa [hlen] using hle
      · intro st1 step1 h; simp [runLoop, loopStep] at h
    | invokeFail m1 =>
      refine ⟨?_, ?_, ?_⟩
      · intro r st1 h; simp [runLoop, loopStep] at h
      · intro m st1 h
        simp [runLoop, loopStep] at h
        rw [← h.2]
        simpa [hlen] using hle
      · intro st1 step1 h; simp [runLoop, loopStep] at h
    | stepRun input tr1 usage =>
      cases hm : runMacroTool R st.totalWaitTime st.aborted input tr1 with
      | thrown m1 =>
        refine ⟨?_, ?_, ?_⟩
        · intro r st1 h; simp [runLoop, loopStep, hm] at h
        · intro m st1 h
          simp [runLoop, loopStep, hm] at h
          rw [← h.2]
          simpa [hlen] using hle
        · intro st1 step1 h; simp [runLoop, loopStep, hm] at h
      | ok output newWait =>
        by_cases hM : M < step + 1
        · refine ⟨?_, ?_, ?_⟩
          · intro r st1 h
            simp [runLoop, loopStep, hm, hM] at h
            rw [← h.1]
            simp [hlen]
            omega
          · intro m st1 h; simp [runLoop, loopStep, hm, hM] at h
          · intro st1 step1 h; simp [runLoop, loopStep, hm, hM] at h
        · by_cases hd : (input.action.head?.getD ("undefined", ({} : ToolArg))).1 = "done"
          · refine ⟨?_, ?_, ?_⟩
            · intro r st1 h
              simp [runLoop, loopStep, hm, hM, hd] at h
              rw [← h.1]
              simp [hlen]
              omega
            · intro m st1 h; simp [runLoop, loopStep, hm, hM, hd] at h
            · intro st1 step1 h; simp [runLoop, loopStep, hm, hM, hd] at h
          · refine ⟨?_, ?_, ?_⟩
            · intro r st1 h
              simp [runLoop, loopStep, hm, hM, hd] at h
              exact (ih _ (step + 1) (by simp [hlen]) (by omega)).1 r st1 h
            · intro m st1 h
              simp [runLoop, loopStep, hm, hM, hd] at h
              exact (ih _ (step + 1) (by simp [hlen]) (by omega)).2.1 m st1 h
            · intro st1 step1 h
              simp [runLoop, loopStep, hm, hM, hd] at h
              exact (ih _ (step + 1) (by simp [hlen]) (by omega)).2.2 st1 step1 h

end PageAgentSpec

namespace PageAgentSpec

/-- C1 (counterexample): with `maxSteps = 1` and two completed non-terminal
steps, `execute` terminates on the step-limit path with a history of length
2, so the claimed bound `history.length ≤ maxSteps` is false. -/
theorem C1_counterexample :
    (resultOf (execute 1 regEx st0 "t" [noopEv, noopEv])).map
      (fun r => r.history.length) = some 2 ∧ ¬ (2 ≤ 1) :=
  ⟨by with_unfolding_all decide, by decide⟩

/-- C1 (amended): for every completed task execution (any termination path
of `execute`), the length of the returned history is at most
`maxSteps + 1`.  The step-limit exit pushes its final record before the
counter check, so that path returns exactly `maxSteps + 1` records; every
other path returns at most `maxSteps`. -/
theorem C1_history_bound (M : Nat) (R : Registry) (st : AgentState) (task : String)
    (trace : List StepEvent) (r : ExecutionResult) (st1 : AgentState)
    (h : execute M R st task trace = .done r st1) :
    r.history.length ≤ M + 1 := by
  by_cases htask : task = ""
  · subst htask; simp [execute] at h
  · simp only [execute, if_neg htask] at h
    have hinv := runLoop_hist_inv M R trace (resetForTask st task) 0
      (by simp [resetForTask]) (Nat.zero_le M)
    cases hrl : runLoop M R (resetForTask st task) 0 trace with
    | ret r2 st2 =>
      rw [hrl] at h
      simp at h
      rw [← h.1]
      exact hinv.1 r2 st2 hrl
    | thrown m st2 =>
      rw [hrl] at h
      simp at h
      rw [← h.1]
      simp only [List.length]
      exact le_trans (hinv.2.1 m st2 hrl) (Nat.le_succ M)
    | more st2 n =>
      rw [hrl] at h
      simp at h

/-- Witness for C1 (amended) at a concrete input. -/
theorem C1_history_bound_witness :
    ({ success := false, data := "e", history := [] } : ExecutionResult).history.length ≤ 1 + 1 :=
  C1_history_bound 1 regEx st0 "x" [.invokeFail "e"]
    { success := false, data := "e", history := [] }
    (onDone (resetForTask st0 "x")) (by with_unfolding_all decide)

theorem runLoop_onDone_inv (M : Nat) (R : Registry) :
    ∀ (tr : List StepEvent) (st : AgentState) (step : Nat),
    (∀ r st1, runLoop M R st step tr = .ret r st1 →
      st1.onDoneCalls = st.onDoneCalls + 1 ∧ st1.aborted = true) ∧
    (∀ m st1, runLoop M R st step tr = .thrown m st1 →
      st1.onDoneCalls = st.onDoneCalls) ∧
    (∀ st1 step1, runLoop M R st step tr = .more st1 step1 →
      st1.onDoneCalls = st.onDoneCalls) := by
  intro tr
  induction tr with
  | nil =>
    intro st step
    refine ⟨?_, ?_, ?_⟩
    · intro r st1 h; simp [runLoop] at h
    · intro m st1 h; simp [runLoop] at h
    · intro st1 step1 h
      simp [runLoop] at h
      rw [← h.1]
  | cons e es ih =>
    intro st step
    cases e with
    | cancelBefore =>
      refine ⟨?_, ?_, ?_⟩
      · intro r st1 h; simp [runLoop, loopStep] at h
      · intro m st1 h
        simp [runLoop, loopStep] at h
        rw [← h.2]
      · intro st1 step1 h; simp [runLoop, loopStep] at h
    | invokeFail m1 =>
      refine ⟨?_, ?_, ?_⟩
      · intro r st1 h; simp [runLoop, loopStep] at h
      · intro m st1 h
        simp [runLoop, loopStep] at h
        rw [← h.2]
      · intro st1 step1 h; simp [runLoop, loopStep] at h
    | stepRun input tr1 usage =>
      cases hm : runMacroTool R st.totalWaitTime st.aborted input tr1 with
      | thrown m1 =>
        refine ⟨?_, ?_, ?_⟩
        · intro r st1 h; simp [runLoop, loopStep, hm] at h
        · intro m st1 h
          simp [runLoop, loopStep, hm] at h
          rw [← h.2]
        · intro st1 step1 h; simp [runLoop, loopStep, hm] at h
      | ok output newWait =>
        by_cases hM : M < step + 1
        · refine ⟨?_, ?_, ?_⟩
          · intro r st1 h
            simp [runLoop, loopStep, hm, hM] at h
            rw [← h.2]
            simp [onDone]
          · intro m st1 h; simp [runLoop, loopStep, hm, hM] at h
          · intro st1 step1 h; simp [runLoop, loopStep, hm, hM] at h
        · by_cases hd : (input.action.head?.getD ("undefined", ({} : ToolArg))).1 = "done"
          · refine ⟨?_, ?_, ?_⟩
            · intro r st1 h
              simp [runLoop, loopStep, hm, hM, hd] at h
              rw [← h.2]
              simp [onDone]
            · intro m st1 h; simp [runLoop, loopStep, hm, hM, hd] at h
            · intro st1 step1 h; simp [runLoop, loopStep, hm, hM, hd] at h
          · refine ⟨?_, ?_, ?_⟩
            · intro r st1 h
              simp [runLoop, loopStep, hm, hM, hd] at h
              have hc := (ih _ (step + 1)).1 r st1 h
              simpa using hc
            · intro m st1 h
              simp [runLoop, loopStep, hm, hM, hd] at h
              have hc := (ih _ (step + 1)).2.1 m st1 h
              simpa using hc
            · intro st1 step1 h
              simp [runLoop, loopStep, hm, hM, hd] at h
              have hc := (ih _ (step + 1)).2.2 st1 step1 h
              simpa using hc

/-- C10: on every termination path of `execute` (terminal-tool return,
step-limit failure, and caught-error failure — every outcome that returns a
result), the done lifecycle notification `#onDone` runs exactly once, and
it aborts the task's current cancellation token: the token that was current
during the task ends in the cancelled state. -/
theorem C10_done_notification (M : Nat) (R : Registry) (st : AgentState) (task : String)
    (trace : List StepEvent) (r : ExecutionResult) (st1 : AgentState)
    (h : execute M R st task trace = .done r st1) :
    st1.onDoneCalls = st.onDoneCalls + 1 ∧ st1.aborted = true := by
  by_cases htask : task = ""
  · subst htask; simp [execute] at h
  · simp only [execute, if_neg htask] at h
    have hinv := runLoop_onDone_inv M R trace (resetForTask st task) 0
    cases hrl : runLoop M R (resetForTask st task) 0 trace with
    | ret r2 st2 =>
      rw [hrl] at h
      simp at h
      rw [← h.2]
      simpa [resetForTask] using hinv.1 r2 st2 hrl
    | thrown m st2 =>
      rw [hrl] at h
      simp at h
      rw [← h.2]
      have := hinv.2.1 m st2 hrl
      simp [onDone, this, resetForTask]
    | more st2 n =>
      rw [hrl] at h
      simp at h

/-- Witness for C10 at a concrete input. -/
theorem C10_done_notification_witness :
    (onDone (resetForTask st0 "t")).onDoneCalls = st0.onDoneCalls + 1 ∧
    (onDone (resetForTask st0 "t")).aborted = true :=
  C10_done_notification 1 regEx st0 "t" [.invokeFail "e"]
    { success := false, data := "e", history := [] }
    (onDone (resetForTask st0 "t")) (by with_unfolding_all decide)

end PageAgentSpec

namespace PageAgentSpec

/-! ### C2: the wait accumulator across task boundaries -/

/-- C2 (counterexample): a first task ends after a `wait` step leaves the
accumulator at 2 (a decode failure then terminates it); at the start of the
next `execute` call the accumulator still holds 2, not 0. -/
theorem C2_counterexample :
    (stateOf (execute 2 regEx
        (stateOf (execute 2 regEx st0 "t1" [waitEv 2, StepEvent.invokeFail "boom"]))
        "t2" [])).totalWaitTime = 2 ∧ (2 : ℤ) ≠ 0 :=
  ⟨by with_unfolding_all decide, by decide⟩

/-- C2 (amended): `execute` does not reset the Wait Accumulator: at the
start of every `execute` call the accumulator retains the value the
previous task left in it (it is a per-agent field initialised to zero at
construction), and it is reset to zero exactly by the selection of any
non-`wait` tool. -/
theorem C2_wait_carryover :
    (∀ (M : Nat) (R : Registry) (st : AgentState) (task : String), task ≠ "" →
      (stateOf (execute M R st task [])).totalWaitTime = st.totalWaitTime) ∧
    (∀ (R : Registry) (w : ℤ) (input : MacroToolInput) (name : String)
        (arg : ToolArg) (t : Tool) (raw : String) (dur : ℚ),
      input.action.head? = some (name, arg) → name ≠ "wait" → mapGet R name = some t →
      runMacroTool R w false input (.ok raw dur) = .ok raw 0) := by
  constructor
  · intro M R st task htask
    simp [execute, if_neg htask, runLoop, stateOf, resetForTask]
  · intro R w input name arg t raw dur hhead hw ht
    exact runMacroTool_eq_ok_other R w input name arg t raw dur hhead hw ht

/-- Witness for C2 (amended) at a concrete input. -/
theorem C2_wait_carryover_witness :
    (stateOf (execute 2 regEx { totalWaitTime := 5 } "t" [])).totalWaitTime =
      ({ totalWaitTime := 5 } : AgentState).totalWaitTime ∧
    runMacroTool regEx 5 false { action := [("noop", {})] } (.ok "ok" 0) = .ok "ok" 0 :=
  ⟨C2_wait_carryover.1 2 regEx { totalWaitTime := 5 } "t" (by decide),
   C2_wait_carryover.2 regEx 5 { action := [("noop", {})] } "noop" {} {} "ok" 0 rfl
     (by decide) (by decide)⟩

/-! ### C3: the terminal tool's result fields -/

/-- C3 (counterexample): selecting `done` with input
`{ success := true, text := "" }` — the `text` field present but empty —
yields `data = "no text provided"`, so the default is not taken "exactly
when that field is absent". -/
theorem C3_counterexample :
    (resultOf (execute 2 regEx st0 "t"
        [doneEv { success? := some true, text? := some "" }])).map (fun r => r.data) =
      some "no text provided" ∧ ("" : String) ≠ "no text provided" :=
  ⟨by with_unfolding_all decide, by decide⟩

/-- C3 (amended): when the selected tool is `done` (and the step limit is
not hit first), `execute` terminates with `success` taken from the input's
`success` field (default `false` exactly when that field is absent) and
`data` taken from the input's `text` field, defaulting to
`"no text provided"` when that field is absent OR empty (JS falsy `||`);
in particular `{ success := true, text := "X" }` yields
`{ success := true, data := "X" }` and `{}` yields
`{ success := false, data := "no text provided" }`. -/
theorem C3_done_result (M : Nat) (R : Registry) (st : AgentState) (task : String)
    (arg : ToolArg) (raw : String) (dur : ℚ) (usage : Usage) (t : Tool)
    (htask : task ≠ "") (hM : 1 ≤ M) (ht : mapGet R "done" = some t) :
    resultOf (execute M R st task [.stepRun { action := [("done", arg)] } (.ok raw dur) usage]) =
      some { success := arg.success?.getD false
             data := jsOrString arg.text? noTextMsg
             history := [{ brain := brainOf { action := [("done", arg)] }
                           action := { name := "done", input := arg, output := raw }
                           usage := usage }] } ∧
    jsOrString arg.text? noTextMsg =
      (match arg.text? with
       | none => noTextMsg
       | some "" => noTextMsg
       | some s => s) := by
  constructor
  · have hM1 : ¬ (M < 0 + 1) := by omega
    have hmac := runMacroTool_eq_ok_other R (resetForTask st task).totalWaitTime
      { action := [("done", arg)] } "done" arg t raw dur rfl (by decide) ht
    have hM0 : ¬ M = 0 := by omega
    simp [execute, if_neg htask, runLoop, loopStep, resetForTask] at hmac ⊢
    simp [hmac, hM0, resultOf]
  · cases harg : arg.text? with
    | none => rfl
    | some s =>
      by_cases hs : s = ""
      · subst hs; rfl
      · simp [jsOrString, hs]

/-- Witness for C3 (amended) at a concrete input (`done` with empty input
object). -/
theorem C3_done_result_witness :
    resultOf (execute 2 regEx st0 "t" [.stepRun { action := [("done", {})] } (.ok "done" 0) {}]) =
      some { success := false
             data := jsOrString none noTextMsg
             history := [{ brain := brainOf { action := [("done", ({} : ToolArg))] }
                           action := { name := "done", input := {}, output := "done" }
                           usage := {} }] } :=
  (C3_done_result 2 regEx st0 "t" {} "done" 0 {} {} (by decide) (by decide) (by decide)).1

end PageAgentSpec

namespace PageAgentSpec

/-! ### C5: the step ceiling and its priority over the terminal check -/

theorem loopStep_good_continue (M : Nat) (R : Registry) (st : AgentState) (step : Nat)
    (e : StepEvent) (hab : st.aborted = false) (hg : GoodStepN R e) (hstep : step + 1 ≤ M) :
    ∃ st1, loopStep M R st step e = .inl (st1, step + 1) ∧ st1.aborted = false := by
  obtain ⟨input, raw, dur, usage, name, arg, t, rfl, hhead, ht, hnd⟩ := hg
  have hmac : ∃ out w, runMacroTool R st.totalWaitTime false input (.ok raw dur) = .ok out w := by
    by_cases hw : name = "wait"
    · subst hw
      exact ⟨_, _, runMacroTool_eq_ok_wait R st.totalWaitTime input arg t raw dur hhead ht⟩
    · exact ⟨_, _, runMacroTool_eq_ok_other R st.totalWaitTime input name arg t raw dur hhead hw ht⟩
  obtain ⟨out, w, hmac⟩ := hmac
  have hM : ¬ (M < step + 1) := by omega
  have hdd : ¬ ((input.action.head?.getD ("undefined", ({} : ToolArg))).1 = "done") := by
    rw [hhead]
    simpa using hnd
  simp only [loopStep, hab, hmac]
  simp [hM, hdd]

theorem runLoop_good (M : Nat) (R : Registry) :
    ∀ (evs : List StepEvent) (st : AgentState) (step : Nat),
    st.aborted = false → (∀ e ∈ evs, GoodStepN R e) → step + evs.length ≤ M →
    ∃ st1, runLoop M R st step evs = .more st1 (step + evs.length) ∧ st1.aborted = false := by
  intro evs
  induction evs with
  | nil =>
    intro st step hab _ _
    exact ⟨st, by simp [runLoop], hab⟩
  | cons e es ih =>
    intro st step hab hg hle
    have hle1 : step + 1 ≤ M := by simp [List.length_cons] at hle; omega
    obtain ⟨st1, hstep, hab1⟩ := loopStep_good_continue M R st step e hab (hg e (by simp)) hle1
    have hle2 : step + 1 + es.length ≤ M := by simp [List.length_cons] at hle; omega
    obtain ⟨st2, hrun, hab2⟩ := ih st1 (step + 1) hab1 (fun x hx => hg x (by simp [hx])) hle2
    refine ⟨st2, ?_, hab2⟩
    simp only [runLoop, hstep, hrun, List.length_cons]
    congr 1
    omega

/-- C5: if the first `maxSteps` iterations complete normally with
non-terminal tools and the next iteration also completes normally (with any
registered tool, the terminal tool included), `execute` terminates with
`success = false` and the fixed message `"Step count exceeded maximum
limit"`: the step counter, incremented after each step, has exceeded
`maxSteps`, and the step-limit check fires before the terminal-tool check
of the same step. -/
theorem C5_step_limit (M : Nat) (R : Registry) (st : AgentState) (task : String)
    (evs : List StepEvent) (ev : StepEvent) (rest : List StepEvent)
    (htask : task ≠ "") (hlen : evs.length = M)
    (hN : ∀ e ∈ evs, GoodStepN R e) (hA : GoodStepA R ev) :
    ∃ hist st1,
      execute M R st task (evs ++ ev :: rest) =
        .done { success := false, data := stepLimitMsg, history := hist } st1 := by
  obtain ⟨stM, hrun, habM⟩ := runLoop_good M R evs (resetForTask st task) 0 rfl hN (by omega)
  obtain ⟨input, raw, dur, usage, name, arg, t, rfl, hhead, ht⟩ := hA
  have hmac : ∃ out w, runMacroTool R stM.totalWaitTime false input (.ok raw dur) = .ok out w := by
    by_cases hw : name = "wait"
    · subst hw
      exact ⟨_, _, runMacroTool_eq_ok_wait R stM.totalWaitTime input arg t raw dur hhead ht⟩
    · exact ⟨_, _, runMacroTool_eq_ok_other R stM.totalWaitTime input name arg t raw dur hhead hw ht⟩
  obtain ⟨out, w, hmac⟩ := hmac
  have hM : M < evs.length + 1 := by omega
  simp only [execute, if_neg htask, runLoop_append, hrun]
  simp only [runLoop, loopStep, habM, hmac]
  simp [hM]

/-- Witness for C5 at a concrete input: with `maxSteps = 1`, one ordinary
step followed by a `done` selection still terminates on the step-limit
path (the limit check fires before the terminal check). -/
theorem C5_step_limit_witness :
    ∃ hist st1,
      execute 1 regEx st0 "t" ([noopEv] ++ doneEv { success? := some true, text? := some "X" } :: []) =
        .done { success := false, data := stepLimitMsg, history := hist } st1 :=
  C5_step_limit 1 regEx st0 "t" [noopEv] (doneEv { success? := some true, text? := some "X" }) []
    (by decide) rfl
    (by
      intro e he
      simp at he
      subst he
      exact ⟨_, "ok", 0, {}, "noop", {}, {}, rfl, rfl, by decide, by decide⟩)
    ⟨_, "done", 0, {}, "done", _, {}, rfl, rfl, by decide⟩

end PageAgentSpec

namespace PageAgentSpec

/-! ### C7: wait accounting -/

/-- C7: when the selected tool is `wait`, the Wait Accumulator increases by
the requested `seconds` plus the measured latency in milliseconds over
1000, the sum rounded to the nearest whole second, and the recorded output
is the tool's raw output plus the `<sys>` suffix, which carries the
advisory line exactly once the accumulator has reached the threshold 3;
any other tool resets the accumulator to zero and leaves its raw output
untouched.  Concretely, a wait of 2s then a wait of 1s (zero latency)
leaves the accumulator at 3, the second wait's recorded output carries the
advisory, the first does not, and a following non-wait tool resets the
accumulator to zero with no advisory text in its recorded output. -/
theorem C7_wait_accounting :
    (∀ (R : Registry) (w : ℤ) (input : MacroToolInput) (name : String) (arg : ToolArg)
        (t : Tool) (raw : String) (dur : ℚ),
      input.action.head? = some (name, arg) → name = "wait" → mapGet R name = some t →
      runMacroTool R w false input (.ok raw dur) =
        .ok (raw ++ waitSuffix (w + jsRound (arg.seconds + dur / 1000)))
          (w + jsRound (arg.seconds + dur / 1000))) ∧
    (∀ w : ℤ, 3 ≤ w → ∃ a b, waitSuffix w = a ++ advisoryText ++ b) ∧
    (∀ (R : Registry) (w : ℤ) (input : MacroToolInput) (name : String) (arg : ToolArg)
        (t : Tool) (raw : String) (dur : ℚ),
      input.action.head? = some (name, arg) → name ≠ "wait" → mapGet R name = some t →
      runMacroTool R w false input (.ok raw dur) = .ok raw 0) ∧
    ((stateOf (execute 5 regEx st0 "t" [waitEv 2, waitEv 1])).totalWaitTime = 3 ∧
     (stateOf (execute 5 regEx st0 "t" [waitEv 2, waitEv 1, clickEv])).totalWaitTime = 0 ∧
     (stateOf (execute 5 regEx st0 "t" [waitEv 2, waitEv 1, clickEv])).history.map
        (fun h => h.action.output) = ["ok" ++ waitSuffix 2, "ok" ++ waitSuffix 3, "clicked"] ∧
     hasAdvisory ("ok" ++ waitSuffix 3) ∧ ¬ hasAdvisory ("ok" ++ waitSuffix 2) ∧
     ¬ hasAdvisory "clicked") := by
  refine ⟨?_, ?_, ?_, ?_⟩
  · intro R w input name arg t raw dur hhead hw ht
    subst hw
    exact runMacroTool_eq_ok_wait R w input arg t raw dur hhead ht
  · intro w h
    refine ⟨"\n<sys> You have waited " ++ toString w ++ " seconds accumulatively.",
      "</sys>", ?_⟩
    simp only [waitSuffix]
    rw [if_pos h]
  · intro R w input name arg t raw dur hhead hw ht
    exact runMacroTool_eq_ok_other R w input name arg t raw dur hhead hw ht
  · exact by with_unfolding_all decide

/-- Witness for C7 at a concrete input (a wait of 2 seconds with zero
measured latency, starting from accumulator 0). -/
theorem C7_wait_accounting_witness :
    runMacroTool regEx 0 false { action := [("wait", { seconds := 2 })] } (.ok "ok" 0) =
      .ok ("ok" ++ waitSuffix (0 + jsRound ((2 : ℚ) + 0 / 1000)))
        (0 + jsRound ((2 : ℚ) + 0 / 1000)) :=
  C7_wait_accounting.1 regEx 0 { action := [("wait", { seconds := 2 })] } "wait"
    { seconds := 2 } {} "ok" 0 rfl rfl (by decide)

/-! ### C8: tool removal by null override -/

theorem mapDelete_key_not_mem (m : Registry) (k : String) :
    k ∉ (mapDelete m k).map Prod.fst := by
  intro hk
  rcases List.mem_map.mp hk with ⟨p, hp, hfst⟩
  have h2 := (List.mem_filter.mp hp).2
  simp [hfst] at h2

theorem mapDelete_not_mem_mono (m : Registry) (k k1 : String)
    (h : k ∉ m.map Prod.fst) : k ∉ (mapDelete m k1).map Prod.fst := by
  intro hk
  rcases List.mem_map.mp hk with ⟨p, hp, hfst⟩
  exact h (List.mem_map.mpr ⟨p, (List.mem_filter.mp hp).1, hfst⟩)

theorem mapSet_not_mem (m : Registry) (k k1 : String) (v : Tool)
    (hne : k ≠ k1) (h : k ∉ m.map Prod.fst) : k ∉ (mapSet m k1 v).map Prod.fst := by
  intro hk
  unfold mapSet at hk
  split at hk
  · rcases List.mem_map.mp hk with ⟨q, hq, hfst⟩
    rcases List.mem_map.mp hq with ⟨p, hp, rfl⟩
    by_cases hp1 : p.1 = k1
    · rw [if_pos hp1] at hfst
      exact hne (by simpa using hfst.symm)
    · rw [if_neg hp1] at hfst
      exact h (List.mem_map.mpr ⟨p, hp, hfst⟩)
  · rw [List.map_append] at hk
    rcases List.mem_append.mp hk with hk | hk
    · exact h hk
    · simp at hk
      exact hne hk

theorem buildTools_not_mem_aux (k : String) :
    ∀ (cs : List (String × Option Tool)) (m : Registry),
    (∀ e ∈ cs, e.1 ≠ k) → k ∉ m.map Prod.fst →
    k ∉ (cs.foldl applyCustom m).map Prod.fst := by
  intro cs
  induction cs with
  | nil =>
    intro m _ h
    simpa using h
  | cons c cs ih =>
    intro m hcs h
    simp only [List.foldl]
    apply ih
    · intro e he
      exact hcs e (by simp [he])
    · cases hc : c.2 with
      | none =>
        simp only [applyCustom, hc]
        exact mapDelete_not_mem_mono m k c.1 h
      | some t =>
        simp only [applyCustom, hc]
        exact mapSet_not_mem m k c.1 t (fun hkk => hcs c (by simp) hkk.symm) h

theorem buildTools_removed (name : String) :
    ∀ (customs : List (String × Option Tool)) (builtins : Registry),
    (customs.map Prod.fst).Nodup → ((name, none) ∈ customs) →
    name ∉ (buildTools builtins customs).map Prod.fst := by
  intro customs
  induction customs with
  | nil =>
    intro b _ hmem
    simp at hmem
  | cons c cs ih =>
    intro b hnd hmem
    rcases List.mem_cons.mp hmem with hc | hc
    · simp only [buildTools, List.foldl]
      rw [← hc]
      simp only [applyCustom]
      refine buildTools_not_mem_aux name cs (mapDelete b name) ?_ (mapDelete_key_not_mem b name)
      intro e he hek
      have hnd1 : c.1 ∉ cs.map Prod.fst := by
        simp only [List.map_cons] at hnd
        exact (List.nodup_cons.mp hnd).1
      rw [← hc] at hnd1
      exact hnd1 (hek ▸ List.mem_map.mpr ⟨e, he, rfl⟩)
    · simp only [buildTools, List.foldl]
      have hnd2 : (cs.map Prod.fst).Nodup := by
        simp only [List.map_cons] at hnd
        exact (List.nodup_cons.mp hnd).2
      exact ih (applyCustom b c) hnd2 hc

theorem mapGet_eq_none (m : Registry) (k : String) (h : k ∉ m.map Prod.fst) :
    mapGet m k = none := by
  induction m with
  | nil => rfl
  | cons p m ih =>
    obtain ⟨k1, v⟩ := p
    by_cases hp : k1 = k
    · exact absurd (by simp [hp]) h
    · simp only [mapGet, if_neg hp]
      exact ih (fun hk => h (by simp [hk]))

/-- C8: a `customTools` entry mapping a tool name to `null` removes that
tool (built-ins included) from the registry built by the constructor, so
its name is absent from the composed decision schema (a discriminated
union keyed by tool name over exactly the registered tools); a decoded
Decision whose single action key names the absent tool fails the step with
the tool-not-found error, converted at the task boundary into a failure
result. -/
theorem C8_null_override (builtins : Registry) (customs : List (String × Option Tool))
    (name : String) (arg : ToolArg) (tr : ToolRun) (usage : Usage)
    (M : Nat) (st : AgentState) (task : String) (rest : List StepEvent)
    (hnd : (customs.map Prod.fst).Nodup) (hmem : (name, none) ∈ customs)
    (htask : task ≠ "") :
    name ∉ composeActionNames (buildTools builtins customs) ∧
    execute M (buildTools builtins customs) st task
        (.stepRun { action := [(name, arg)] } tr usage :: rest) =
      .done { success := false, data := toolNotFoundMsg name, history := [] }
        (onDone (resetForTask st task)) := by
  have habs := buildTools_removed name customs builtins hnd hmem
  constructor
  · simpa [composeActionNames] using habs
  · have hget := mapGet_eq_none (buildTools builtins customs) name habs
    have hmac := runMacroTool_eq_notFound (buildTools builtins customs)
      (resetForTask st task).totalWaitTime { action := [(name, arg)] } name arg tr rfl hget
    simp [execute, if_neg htask, runLoop, loopStep, resetForTask] at hmac ⊢
    simp [hmac]

/-- Witness for C8 at a concrete input: removing the built-in `click` via a
null override. -/
theorem C8_null_override_witness :
    "click" ∉ composeActionNames (buildTools regEx [("click", none)]) ∧
    execute 2 (buildTools regEx [("click", none)]) st0 "t"
        (.stepRun { action := [("click", ({} : ToolArg))] } (.ok "clicked" 0) {} :: []) =
      .done { success := false, data := toolNotFoundMsg "click", history := [] }
        (onDone (resetForTask st0 "t")) :=
  C8_null_override regEx [("click", none)] "click" {} (.ok "clicked" 0) {} 2 st0 "t" []
    (by decide) (by simp) (by decide)

end PageAgentSpec
